import Mathlib

/-!
Verification of the AMAPI lyric transcoder (`src/apple.py`).

The development shallowly embeds the two pure functions of the repository,
`AppleMusicAPI.to_standard_time` and `AppleMusicAPI.ttml_to_lrc`, over
`List Char` strings and an explicit element-tree datatype mirroring the
`xml.etree.ElementTree` node shape used by the code.  Python exceptions are
modelled with `Except`/explicit outcome types.
-/

namespace AMAPI

/-- Python runtime errors that the transcoder can raise, plus the error class
named by the specification.  `valueError` models `int()` failing on a string
that is not a decimal numeral; `typeError` models `re.sub` applied to `None`;
`unboundLocalError` models reading a local variable that no branch assigned.
`timecodeFormatError` is the defined error of spec section 7; it is modelled
from the spec only and is never produced by the code. -/
inductive PyErr where
  | valueError
  | typeError
  | unboundLocalError
  | timecodeFormatError
deriving DecidableEq, Repr

/-- Characters kept by the cleanup `re.sub(r'[^0-9.:]', '', time)`:
digits, dot and colon. -/
def isTimeChar (c : Char) : Bool := c.isDigit || c == '.' || c == ':'

/-- The cleanup substitution: drop every character that is not a digit,
a dot or a colon. -/
def stripTime (s : List Char) : List Char := s.filter isTimeChar

/-- Python `str.split(sep)` for a single-character separator: empty input
gives one empty field, and separators delimit (possibly empty) fields. -/
def pySplit (sep : Char) : List Char → List (List Char)
  | [] => [[]]
  | c :: rest =>
    match pySplit sep rest with
    | [] => [[c]]
    | f :: fs => if c = sep then [] :: f :: fs else (c :: f) :: fs

/-- Decimal value of a digit string (most significant first). -/
def digitsToNat (l : List Char) : Nat :=
  l.foldl (fun a c => a * 10 + (c.toNat - 48)) 0

/-- Python `int(s)` on the strings reachable here (after the cleanup they
contain only digits and dots): succeeds exactly on nonempty all-digit
strings, otherwise raises `ValueError`. -/
def pyInt (l : List Char) : Except PyErr Nat :=
  if l = [] then .error .valueError
  else if l.all Char.isDigit then .ok (digitsToNat l)
  else .error .valueError

/-- The inner helper `parse_milliseconds` of `to_standard_time`: empty means 0,
one digit is multiplied by 100, two digits by 10, otherwise the first three
digits are taken verbatim.  (Its `int` calls never fail: the argument is a
dot-free slice of the cleaned string, hence all digits.) -/
def parse_milliseconds (ms : List Char) : Nat :=
  if ms = [] then 0
  else if ms.length = 1 then digitsToNat ms * 100
  else if ms.length = 2 then digitsToNat ms * 10
  else digitsToNat (ms.take 3)

/-- Fuel-driven decimal rendering helper (structural, so that the kernel can
evaluate it). -/
def natDigitsAux : Nat → Nat → List Char
  | 0, _ => []
  | fuel + 1, n =>
    if n < 10 then [Nat.digitChar n]
    else natDigitsAux fuel (n / 10) ++ [Nat.digitChar (n % 10)]

/-- Decimal digit string of a natural number, as Python `str`/`%d` renders it. -/
def natDigits (n : Nat) : List Char := natDigitsAux (n + 1) n

/-- Python `"%0wd" % n` for natural `n`: the decimal digits, left-padded with
zeros to at least width `w`. -/
def fmtNat (w n : Nat) : List Char :=
  List.replicate (w - (natDigits n).length) '0' ++ natDigits n

/-- The return expression of `to_standard_time` together with the preceding
carry block: `minutes += hours * 60; if seconds >= 60: ...` followed by
`f"{minutes:02d}:{seconds:02d}.{milliseconds:03d}"`. -/
def formatTime (hours minutes seconds ms : Nat) : List Char :=
  let m := minutes + hours * 60
  let p := if seconds ≥ 60 then (m + seconds / 60, seconds % 60) else (m, seconds)
  fmtNat 2 p.1 ++ (':' :: (fmtNat 2 p.2 ++ ('.' :: fmtNat 3 ms)))

/-- `times[k].split('.')` followed by `int(seconds_parts[0])` and the
conditional `parse_milliseconds(seconds_parts[1]) if len(seconds_parts) > 1
else 0`, shared verbatim by the three field-count branches. -/
def secondsAndMs (field : List Char) : Except PyErr (Nat × Nat) :=
  match pySplit '.' field with
  | [] => .error .valueError
  | s :: rest =>
    match pyInt s with
    | .error e => .error e
    | .ok sec =>
      .ok (sec, match rest with
                | [] => 0
                | m :: _ => parse_milliseconds m)

/-- `AppleMusicAPI.to_standard_time`: clean the string, split on `:`, parse
1/2/3 fields as `SS[.fff]` / `MM:SS[.fff]` / `HH:MM:SS[.fff]`, carry and
format.  Any other field count leaves the locals unassigned, so the final
statements raise `UnboundLocalError`. -/
def to_standard_time (time : List Char) : Except PyErr (List Char) :=
  match pySplit ':' (stripTime time) with
  | [f] =>
    match secondsAndMs f with
    | .error e => .error e
    | .ok (sec, ms) => .ok (formatTime 0 0 sec ms)
  | [f1, f2] =>
    match pyInt f1 with
    | .error e => .error e
    | .ok m =>
      match secondsAndMs f2 with
      | .error e => .error e
      | .ok (sec, ms) => .ok (formatTime 0 m sec ms)
  | [f1, f2, f3] =>
    match pyInt f1 with
    | .error e => .error e
    | .ok h =>
      match pyInt f2 with
      | .error e => .error e
      | .ok m =>
        match secondsAndMs f3 with
        | .error e => .error e
        | .ok (sec, ms) => .ok (formatTime h m sec ms)
  | _ => .error .unboundLocalError

example : to_standard_time ("47.243".data) = .ok ("00:47.243".data) := rfl
example : to_standard_time ("04:24.638".data) = .ok ("04:24.638".data) := rfl
example : to_standard_time ("1:2:3.4".data) = .ok ("62:03.400".data) := rfl
example : to_standard_time ("00:75.000".data) = .ok ("01:15.000".data) := rfl
example : to_standard_time ("".data) = .error .valueError := rfl
example : to_standard_time ("1:2:3:4".data) = .error .unboundLocalError := rfl

/-! ## The element tree (`xml.etree.ElementTree` node shape) -/

mutual
/-- An `ElementTree` element: resolved tag (namespace-qualified tags carry the
braced URI prefix), attribute list, `.text`, `.tail`, and child elements. -/
inductive Elem where
  | mk (tag : List Char) (attrs : List (List Char × List Char))
       (text : Option (List Char)) (tl : Option (List Char)) (kids : ElemList)

/-- Child list of an element (a mutual inductive so that all tree walks are
structural and kernel-evaluable). -/
inductive ElemList where
  | nil : ElemList
  | cons : Elem → ElemList → ElemList
end

def Elem.tag : Elem → List Char
  | .mk t _ _ _ _ => t

def Elem.attrs : Elem → List (List Char × List Char)
  | .mk _ a _ _ _ => a

def Elem.text : Elem → Option (List Char)
  | .mk _ _ tx _ _ => tx

def Elem.tl : Elem → Option (List Char)
  | .mk _ _ _ t _ => t

def Elem.kids : Elem → ElemList
  | .mk _ _ _ _ k => k

def ElemList.toList : ElemList → List Elem
  | .nil => []
  | .cons e r => e :: r.toList

/-- Direct children, as a plain list. -/
def Elem.children (e : Elem) : List Elem := e.kids.toList

/-- All elements of the list together with their proper descendants, in
document (preorder) order. -/
def ElemList.elems : ElemList → List Elem
  | .nil => []
  | .cons e rest =>
    match e with
    | .mk t a tx tl k => Elem.mk t a tx tl k :: k.elems ++ rest.elems

/-- All proper descendants of an element in document order — the search space
of an ElementTree `.//tag` path. -/
def Elem.descendants (e : Elem) : List Elem := e.kids.elems

/-- `opt x` is the text contributed by an optional string (absent means none). -/
def optText : Option (List Char) → List Char
  | some t => t
  | none => []

/-- Concatenated `itertext()` of a child list: each child contributes its own
`itertext()` followed by its `.tail`. -/
def ElemList.textOf : ElemList → List Char
  | .nil => []
  | .cons e rest =>
    match e with
    | .mk _ _ tx tl k => (optText tx ++ k.textOf) ++ optText tl ++ rest.textOf

/-- `''.join(element.itertext())`: own text, then every descendant text and
tail in document order (the element's own tail excluded). -/
def Elem.itertext : Elem → List Char
  | .mk _ _ tx _ k => optText tx ++ k.textOf

/-- `element.get(name)`: attribute lookup. -/
def Elem.get (e : Elem) (name : List Char) : Option (List Char) :=
  (e.attrs.find? (fun p => p.1 = name)).map (fun p => p.2)

/-- `element.findall(tag)` without a path prefix: direct children with the tag. -/
def findallChild (tag : List Char) (e : Elem) : List Elem :=
  e.children.filter (fun d => d.tag = tag)

/-- `element.findall('.//tag')`: all descendants with the tag, in document
order. -/
def findallDesc (tag : List Char) (e : Elem) : List Elem :=
  e.descendants.filter (fun d => d.tag = tag)

/-- `element.find(tag)`: first direct child with the tag. -/
def findChild (tag : List Char) (e : Elem) : Option Elem :=
  (findallChild tag e).head?

/-- `element.find('.//tag')`: first descendant with the tag. -/
def findDesc (tag : List Char) (e : Elem) : Option Elem :=
  (findallDesc tag e).head?

/-! ## `ttml_to_lrc` -/

/-- Resolved tag of `tt:body` under the TTML namespace map. -/
def qtBody : List Char := "\x7bhttp://www.w3.org/ns/ttml\x7dbody".data

/-- Resolved tag of `tt:div`. -/
def qtDiv : List Char := "\x7bhttp://www.w3.org/ns/ttml\x7ddiv".data

/-- Resolved tag of `tt:p`. -/
def qtP : List Char := "\x7bhttp://www.w3.org/ns/ttml\x7dp".data

/-- Resolved tag of `tt:span`. -/
def qtSpan : List Char := "\x7bhttp://www.w3.org/ns/ttml\x7dspan".data

/-- The qualified `itunes:songPart` attribute name. -/
def qtSongPart : List Char :=
  "\x7bhttp://music.apple.com/lyric-ttml-internal\x7dsongPart".data

/-- The unqualified `itunes:songPart` alias. -/
def rawSongPart : List Char := "itunes:songPart".data

/-- The literal untimed-document marker searched for in the raw markup. -/
def timingSentinel : List Char := "itunes:timing=\"None\"".data

/-- Python substring containment (`pat in s`). -/
def hasSubstr (pat : List Char) : List Char → Bool
  | [] => pat.isEmpty
  | c :: rest => List.isPrefixOf pat (c :: rest) || hasSubstr pat rest

/-- Python `a or b` on two element lists: the first list if nonempty
(truthy), else the second. -/
def pyOr (a b : List Elem) : List Elem := if a.isEmpty then b else a

/-- Python `a or b` on two optional attribute values: `None` and the empty
string are falsy. -/
def pyOrAttr (a b : Option (List Char)) : Option (List Char) :=
  match a with
  | some s => if s = [] then b else some s
  | none => b

/-- Body lookup: `root.find('.//tt:body', ns)`, falling back to
`root.find('body')`. -/
def lookupBody (root : Elem) : Option Elem :=
  match findDesc qtBody root with
  | some b => some b
  | none => findChild ("body".data) root

/-- `body.findall('.//tt:div', ns) or body.findall('div')`. -/
def lookupDivs (body : Elem) : List Elem :=
  pyOr (findallDesc qtDiv body) (findallChild ("div".data) body)

/-- `div.findall('.//tt:p', ns) or div.findall('p')`. -/
def lookupLines (d : Elem) : List Elem :=
  pyOr (findallDesc qtP d) (findallChild ("p".data) d)

/-- `line.findall('.//tt:span', ns) or line.findall('span')`. -/
def lookupSpans (line : Elem) : List Elem :=
  pyOr (findallDesc qtSpan line) (findallChild ("span".data) line)

/-- Python `str.strip()` whitespace test (the whitespace characters relevant
to these inputs). -/
def isPySpace (c : Char) : Bool :=
  c == ' ' || c == '\t' || c == '\n' || c == '\r' || c == '\x0b' || c == '\x0c'

/-- Python `str.strip()`: remove leading and trailing whitespace. -/
def pyStrip (l : List Char) : List Char :=
  ((l.dropWhile isPySpace).reverse.dropWhile isPySpace).reverse

/-- Text of one line element, shared by both modes: if the span lookup is
nonempty, `''.join(line.itertext()).strip()`; otherwise
`line.text.strip() if line.text else ''`. -/
def lineText (line : Elem) : List Char :=
  if (lookupSpans line).isEmpty then
    match line.text with
    | some t => if t = [] then [] else pyStrip t
    | none => []
  else pyStrip line.itertext

/-- One entry of the intermediate `lrc_body` list: a section mark or a timed
line carrying the raw `begin`/`end` attribute values and the extracted text. -/
inductive LrcItem where
  | mark (part : List Char)
  | line (beginv : Option (List Char)) (endv : Option (List Char)) (text : List Char)

def LrcItem.isLine : LrcItem → Bool
  | .line _ _ _ => true
  | .mark _ => false

/-- The `lrc_body` entry built for one line element. -/
def lineItem (line : Elem) : LrcItem :=
  .line (line.get ("begin".data)) (line.get ("end".data)) (lineText line)

/-- Entries contributed by one `div`: the optional section mark (emitted when
the `songPart` attribute, qualified or aliased, is truthy) followed by one
line entry per discovered line element. -/
def processDiv (d : Elem) : List LrcItem :=
  let sp := pyOrAttr (d.get qtSongPart) (d.get rawSongPart)
  (match sp with
   | some p => if p = [] then [] else [LrcItem.mark p]
   | none => []) ++
  (lookupLines d).map lineItem

/-- The rendering loop over `lrc_body`: a mark renders as `[part]` plus
newline; a line renders as `[to_standard_time(begin)]text` plus newline.  An
absent `begin` reaches `re.sub` as `None` and raises `TypeError`. -/
def renderItems : List LrcItem → Except PyErr (List Char)
  | [] => .ok []
  | LrcItem.mark p :: rest =>
    match renderItems rest with
    | .error e => .error e
    | .ok r => .ok ('[' :: p ++ ']' :: '\n' :: r)
  | LrcItem.line b _ t :: rest =>
    match b with
    | none => .error .typeError
    | some bs =>
      match to_standard_time bs with
      | .error e => .error e
      | .ok ts =>
        match renderItems rest with
        | .error e => .error e
        | .ok r => .ok ('[' :: ts ++ ']' :: t ++ '\n' :: r)

/-- The untimed branch: nonempty trimmed line texts, in document order across
all groups. -/
def untimedTextLines (body : Elem) : List (List Char) :=
  (lookupDivs body).flatMap (fun d =>
    (lookupLines d).filterMap (fun line =>
      let t := lineText line
      if t = [] then none else some t))

/-- Untimed rendering: the `[!text]` sentinel followed by the newline-joined
nonempty line texts. -/
def untimedRender (body : Elem) : List Char :=
  "[!text]".data ++ List.intercalate ['\n'] (untimedTextLines body)

/-- Outcome of one `ttml_to_lrc` call: a returned transcript, a propagated
`ET.ParseError` (the malformed-markup error), or a propagated runtime error
from the rendering loop. -/
inductive LrcOutcome where
  | ok (s : List Char)
  | parseError
  | err (e : PyErr)
deriving DecidableEq

def LrcOutcome.isTranscript : LrcOutcome → Bool
  | .ok _ => true
  | _ => false

/-- The timed branch: build `lrc_body` over all groups and render it. -/
def timedRender (body : Elem) : LrcOutcome :=
  match renderItems ((lookupDivs body).flatMap processDiv) with
  | .error e => .err e
  | .ok s => .ok s

/-- `AppleMusicAPI.ttml_to_lrc`.  The input is the raw markup string together
with the result of `ET.fromstring` on it (`none` when the string is not
well-formed markup, in which case the `ParseError` propagates).  An empty
string returns `''` before parsing; a missing body logs and returns `''`;
the untimed sentinel is searched for in the raw string. -/
def ttml_to_lrc (raw : List Char) (parsed : Option Elem) : LrcOutcome :=
  if raw = [] then .ok []
  else
    match parsed with
    | none => .parseError
    | some root =>
      match lookupBody root with
      | none => .ok []
      | some body =>
        if hasSubstr timingSentinel raw then .ok (untimedRender body)
        else timedRender body

/-! ## Concrete example documents -/

/-- Timed example line: `<p begin="0:01.0" end="0:02.0">hello</p>`. -/
def lineC2 : Elem :=
  .mk qtP [("begin".data, "0:01.0".data), ("end".data, "0:02.0".data)]
    (some ("hello".data)) none .nil

/-- Timed example group carrying the qualified `songPart` label `Verse`. -/
def divC2 : Elem := .mk qtDiv [(qtSongPart, "Verse".data)] none none (.cons lineC2 .nil)

def bodyC2 : Elem := .mk qtBody [] none none (.cons divC2 .nil)

def treeC2 : Elem := .mk ("tt".data) [] none none (.cons bodyC2 .nil)

/-- Raw markup of the timed example (no timing sentinel inside). -/
def rawC2 : List Char :=
  "<tt><body><div><p begin=\"0:01.0\" end=\"0:02.0\">hello</p></div></body></tt>".data

example : ttml_to_lrc rawC2 (some treeC2) = .ok ("[Verse]\n[00:01.000]hello\n".data) := rfl

/-- A well-formed tree without any body element (neither qualified nor
unqualified). -/
def treeC3 : Elem :=
  .mk ("x".data) [] none none (.cons (.mk ("y".data) [] none none .nil) .nil)

def rawC3 : List Char := "<x><y/></x>".data

example : ttml_to_lrc rawC3 (some treeC3) = .ok [] := rfl

/-- Untimed example: two lines `a` and `b` in one group. -/
def bodyC4 : Elem :=
  .mk qtBody [] none none
    (.cons (.mk qtDiv [] none none
      (.cons (.mk qtP [] (some ("a".data)) none .nil)
        (.cons (.mk qtP [] (some ("b".data)) none .nil) .nil))) .nil)

def treeC4 : Elem := .mk ("tt".data) [] none none (.cons bodyC4 .nil)

/-- Raw markup of the untimed example; it contains the timing sentinel. -/
def rawC4 : List Char := "<tt itunes:timing=\"None\"><body/></tt>".data

/-- Untimed example with two groups and a whitespace-only line between the
kept lines. -/
def bodyC4b : Elem :=
  .mk qtBody [] none none
    (.cons (.mk qtDiv [] none none
      (.cons (.mk qtP [] (some ("a".data)) none .nil)
        (.cons (.mk qtP [] (some ("  ".data)) none .nil) .nil)))
      (.cons (.mk qtDiv [] none none
        (.cons (.mk qtP [] (some ("b".data)) none .nil) .nil)) .nil))

example : ttml_to_lrc rawC4 (some treeC4) = .ok ("[!text]a\nb".data) := rfl
example : untimedRender bodyC4b = "[!text]a\nb".data := rfl

/-- A document using only unqualified tag names at every level, so every
lookup must take its unqualified fallback. -/
def lineC5 : Elem := .mk ("p".data) [("begin".data, "0:01.0".data)] (some ("hi".data)) none .nil

def divC5 : Elem := .mk ("div".data) [] none none (.cons lineC5 .nil)

def bodyC5 : Elem := .mk ("body".data) [] none none (.cons divC5 .nil)

def treeC5 : Elem := .mk ("tt".data) [] none none (.cons bodyC5 .nil)

def rawC5 : List Char := "<tt><body><div><p begin=\"0:01.0\">hi</p></div></body></tt>".data

example : ttml_to_lrc rawC5 (some treeC5) = .ok ("[00:01.000]hi\n".data) := rfl

/-- A timed line with a `begin` attribute but no text at all. -/
def lineC7 : Elem := .mk qtP [("begin".data, "0:01.0".data)] none none .nil

def divC7 : Elem := .mk qtDiv [] none none (.cons lineC7 .nil)

def bodyC7 : Elem := .mk qtBody [] none none (.cons divC7 .nil)

def treeC7 : Elem := .mk ("tt".data) [] none none (.cons bodyC7 .nil)

def rawC7 : List Char := "<tt><body><div><p begin=\"0:01.0\"/></div></body></tt>".data

example : ttml_to_lrc rawC7 (some treeC7) = .ok ("[00:01.000]\n".data) := rfl

/-- A timed line element that carries no `begin` attribute. -/
def lineC10 : Elem := .mk ("p".data) [] (some ("lost".data)) none .nil

def divC10 : Elem := .mk ("div".data) [] none none (.cons lineC10 .nil)

def bodyC10 : Elem := .mk ("body".data) [] none none (.cons divC10 .nil)

def treeC10 : Elem := .mk ("tt".data) [] none none (.cons bodyC10 .nil)

def rawC10 : List Char := "<tt><body><div><p>lost</p></div></body></tt>".data

example : ttml_to_lrc rawC10 (some treeC10) = .err .typeError := rfl

/-! ## Spec-side canonical output (section 4.1 of the spec) -/

/-- The canonical `MM:SS.fff` output described by spec section 4.1: fold the
seconds overflow into the minutes, keep `seconds mod 60`, and zero-pad the
three components to widths 2, 2 and 3. -/
def canonicalTime (m sec ms : Nat) : List Char :=
  fmtNat 2 (m + sec / 60) ++ (':' :: (fmtNat 2 (sec % 60) ++ ('.' :: fmtNat 3 ms)))

/-- Integer part of a colon field: the slice before the first dot. -/
def intPart (f : List Char) : List Char := (pySplit '.' f).headD []

/-- Fractional part of a colon field: the slice between the first and second
dot (empty when there is no dot). -/
def fracPart (f : List Char) : List Char := ((pySplit '.' f).drop 1).headD []

/-- A field on which Python `int` succeeds: nonempty and all digits. -/
def isIntField (l : List Char) : Bool := !l.isEmpty && l.all Char.isDigit

/-! ## Digit-string lemmas -/

theorem digitsToNat_append_singleton (l : List Char) (c : Char) :
    digitsToNat (l ++ [c]) = digitsToNat l * 10 + (c.toNat - 48) := by
  simp [digitsToNat, List.foldl_append]

theorem foldl_digits_zeros (k : Nat) :
    List.foldl (fun a c => a * 10 + (c.toNat - 48)) 0 (List.replicate k '0') = 0 := by
  induction k with
  | zero => rfl
  | succ k ih => simpa [List.replicate_succ] using ih

theorem digitsToNat_replicate_zero_append (k : Nat) (l : List Char) :
    digitsToNat (List.replicate k '0' ++ l) = digitsToNat l := by
  simp [digitsToNat, List.foldl_append, foldl_digits_zeros]

theorem digit_toNat_bounds {c : Char} (h : c.isDigit = true) :
    48 ≤ c.toNat ∧ c.toNat ≤ 57 := by
  simpa only [Char.isDigit, Bool.and_eq_true, decide_eq_true_eq] using h

theorem digit_ne_colon {c : Char} (h : c.isDigit = true) : c ≠ ':' := by
  intro hc; subst hc; exact absurd h (by decide)

theorem digit_ne_dot {c : Char} (h : c.isDigit = true) : c ≠ '.' := by
  intro hc; subst hc; exact absurd h (by decide)

theorem isTimeChar_of_isDigit {c : Char} (h : c.isDigit = true) :
    isTimeChar c = true := by
  simp [isTimeChar, h]

theorem isDigit_or_dot_of_timeChar {c : Char} (h : isTimeChar c = true)
    (hc : c ≠ ':') : c.isDigit = true ∨ c = '.' := by
  simp only [isTimeChar, Bool.or_eq_true, beq_iff_eq] at h
  rcases h with (h | h) | h
  · exact Or.inl h
  · exact Or.inr h
  · exact absurd h hc

theorem foldl_digits_lt (l : List Char) :
    ∀ a : Nat, (∀ c ∈ l, c.isDigit = true) →
      List.foldl (fun a c => a * 10 + (c.toNat - 48)) a l < (a + 1) * 10 ^ l.length := by
  induction l with
  | nil => intro a _; simp
  | cons c l ih =>
    intro a h
    have hc : c.isDigit = true := h c (List.mem_cons_self c l)
    have hd : c.toNat - 48 ≤ 9 := by
      have := (digit_toNat_bounds hc).2; omega
    have step : a * 10 + (c.toNat - 48) + 1 ≤ (a + 1) * 10 := by omega
    calc List.foldl (fun a c => a * 10 + (c.toNat - 48)) (a * 10 + (c.toNat - 48)) l
        < (a * 10 + (c.toNat - 48) + 1) * 10 ^ l.length :=
          ih _ (fun d hdm => h d (List.mem_cons_of_mem c hdm))
      _ ≤ (a + 1) * 10 * 10 ^ l.length :=
          Nat.mul_le_mul_right _ step
      _ = (a + 1) * 10 ^ (c :: l).length := by
          simp [List.length_cons, Nat.pow_succ]; ring

theorem digitsToNat_lt (l : List Char) (h : ∀ c ∈ l, c.isDigit = true) :
    digitsToNat l < 10 ^ l.length := by
  simpa [digitsToNat] using foldl_digits_lt l 0 h

theorem natDigitsAux_spec : ∀ fuel n, n < fuel → digitsToNat (natDigitsAux fuel n) = n := by
  intro fuel
  induction fuel with
  | zero => intro n h; omega
  | succ fuel ih =>
    intro n h
    by_cases h10 : n < 10
    · have : (Nat.digitChar n).toNat - 48 = n := by interval_cases n <;> decide
      simp [natDigitsAux, h10, digitsToNat, this]
    · have hlt : n / 10 < fuel := by
        have h1 : n / 10 < n := Nat.div_lt_self (by omega) (by omega)
        omega
      have hmod : (Nat.digitChar (n % 10)).toNat - 48 = n % 10 := by
        have : n % 10 < 10 := Nat.mod_lt _ (by omega)
        interval_cases h : n % 10 <;> simp_all <;> decide
      simp only [natDigitsAux, if_neg h10, digitsToNat_append_singleton, ih _ hlt, hmod]
      omega

theorem digitsToNat_natDigits (n : Nat) : digitsToNat (natDigits n) = n :=
  natDigitsAux_spec (n + 1) n (Nat.lt_succ_self n)

theorem natDigitsAux_all_digits :
    ∀ fuel n, ∀ c ∈ natDigitsAux fuel n, c.isDigit = true := by
  intro fuel
  induction fuel with
  | zero => intro n c hc; simp [natDigitsAux] at hc
  | succ fuel ih =>
    intro n c hc
    by_cases h10 : n < 10
    · simp only [natDigitsAux, if_pos h10, List.mem_singleton] at hc
      subst hc
      interval_cases n <;> decide
    · simp only [natDigitsAux, if_neg h10, List.mem_append, List.mem_singleton] at hc
      rcases hc with hc | hc
      · exact ih _ c hc
      · subst hc
        have : n % 10 < 10 := Nat.mod_lt _ (by omega)
        interval_cases h : n % 10 <;> simp_all <;> decide

theorem natDigits_all_digits (n : Nat) : ∀ c ∈ natDigits n, c.isDigit = true :=
  natDigitsAux_all_digits (n + 1) n

theorem natDigitsAux_ne_nil : ∀ fuel n, fuel ≠ 0 → natDigitsAux fuel n ≠ [] := by
  intro fuel n h
  cases fuel with
  | zero => exact absurd rfl h
  | succ fuel =>
    by_cases h10 : n < 10 <;> simp [natDigitsAux, h10]

theorem natDigits_ne_nil (n : Nat) : natDigits n ≠ [] :=
  natDigitsAux_ne_nil (n + 1) n (by omega)

theorem natDigitsAux_length :
    ∀ fuel n k, n < 10 ^ (k + 1) → (natDigitsAux fuel n).length ≤ k + 1 := by
  intro fuel
  induction fuel with
  | zero => intro n k _; simp [natDigitsAux]
  | succ fuel ih =>
    intro n k h
    by_cases h10 : n < 10
    · simp [natDigitsAux, h10]
    · cases k with
      | zero =>
        exfalso
        simp [Nat.pow_succ] at h
        omega
      | succ k =>
        have hdiv : n / 10 < 10 ^ (k + 1) := by
          rw [Nat.div_lt_iff_lt_mul (by omega)]
          calc n < 10 ^ (k + 1 + 1) := h
            _ = 10 ^ (k + 1) * 10 := by rw [Nat.pow_succ]
        have := ih (n / 10) k hdiv
        simp only [natDigitsAux, if_neg h10, List.length_append, List.length_singleton]
        omega

theorem natDigits_length (n k : Nat) (h : n < 10 ^ (k + 1)) :
    (natDigits n).length ≤ k + 1 :=
  natDigitsAux_length (n + 1) n k h

theorem fmtNat_all_digits (w n : Nat) : ∀ c ∈ fmtNat w n, c.isDigit = true := by
  intro c hc
  simp only [fmtNat, List.mem_append, List.mem_replicate] at hc
  rcases hc with ⟨_, hc⟩ | hc
  · subst hc; decide
  · exact natDigits_all_digits n c hc

theorem fmtNat_ne_nil (w n : Nat) : fmtNat w n ≠ [] := by
  simp only [fmtNat]
  intro h
  rcases List.append_eq_nil.mp h with ⟨_, h2⟩
  exact natDigits_ne_nil n h2

theorem digitsToNat_fmtNat (w n : Nat) : digitsToNat (fmtNat w n) = n := by
  simp [fmtNat, digitsToNat_replicate_zero_append, digitsToNat_natDigits]

theorem pyInt_fmtNat (w n : Nat) : pyInt (fmtNat w n) = .ok n := by
  have h1 : fmtNat w n ≠ [] := fmtNat_ne_nil w n
  have h2 : (fmtNat w n).all Char.isDigit = true :=
    List.all_eq_true.mpr (fun c hc => fmtNat_all_digits w n c hc)
  simp [pyInt, h1, h2, digitsToNat_fmtNat]

theorem fmtNat_length (w n : Nat) (h : (natDigits n).length ≤ w) :
    (fmtNat w n).length = w := by
  simp only [fmtNat, List.length_append, List.length_replicate]
  omega

/-! ## `pySplit` and `stripTime` lemmas -/

theorem pySplit_ne_nil (sep : Char) (l : List Char) : pySplit sep l ≠ [] := by
  cases l with
  | nil => simp [pySplit]
  | cons c rest =>
    simp only [pySplit]
    cases h : pySplit sep rest with
    | nil => simp
    | cons f fs => by_cases hc : c = sep <;> simp [hc]

theorem pySplit_of_not_mem {sep : Char} :
    ∀ {l : List Char}, sep ∉ l → pySplit sep l = [l] := by
  intro l
  induction l with
  | nil => intro _; rfl
  | cons c rest ih =>
    intro h
    have hc : ¬(c = sep) := by rintro rfl; exact h (List.mem_cons_self _ _)
    have hr : sep ∉ rest := fun hh => h (List.mem_cons_of_mem c hh)
    simp [pySplit, ih hr, hc]

theorem pySplit_append {sep : Char} :
    ∀ {a : List Char}, sep ∉ a →
      ∀ b : List Char, pySplit sep (a ++ sep :: b) = a :: pySplit sep b := by
  intro a
  induction a with
  | nil =>
    intro _ b
    simp only [List.nil_append, pySplit]
    cases h : pySplit sep b with
    | nil => exact absurd h (pySplit_ne_nil sep b)
    | cons f fs => simp
  | cons c rest ih =>
    intro h b
    have hc : ¬(c = sep) := by rintro rfl; exact h (List.mem_cons_self _ _)
    have hr : sep ∉ rest := fun hh => h (List.mem_cons_of_mem c hh)
    simp [pySplit, ih hr b, hc]

theorem pySplit_chars {sep : Char} :
    ∀ {l f : List Char}, f ∈ pySplit sep l → ∀ {c : Char}, c ∈ f → c ∈ l ∧ c ≠ sep := by
  intro l
  induction l with
  | nil =>
    intro f hf c hc
    simp only [pySplit, List.mem_singleton] at hf
    subst hf
    simp at hc
  | cons a rest ih =>
    intro f hf c hc
    cases hg : pySplit sep rest with
    | nil => exact absurd hg (pySplit_ne_nil sep rest)
    | cons g gs =>
      simp only [pySplit, hg] at hf
      by_cases ha : a = sep
      · rw [if_pos ha] at hf
        cases hf with
        | head => simp at hc
        | tail _ hf =>
          have hf2 : f ∈ pySplit sep rest := by rw [hg]; exact hf
          have := ih hf2 hc
          exact ⟨List.mem_cons_of_mem a this.1, this.2⟩
      · rw [if_neg ha] at hf
        cases hf with
        | head =>
          cases hc with
          | head => exact ⟨List.mem_cons_self a rest, ha⟩
          | tail _ hc2 =>
            have hg2 : g ∈ pySplit sep rest := by
              rw [hg]; exact List.mem_cons_self g gs
            have := ih hg2 hc2
            exact ⟨List.mem_cons_of_mem a this.1, this.2⟩
        | tail _ hf =>
          have hf2 : f ∈ pySplit sep rest := by
            rw [hg]; exact List.mem_cons_of_mem g hf
          have := ih hf2 hc
          exact ⟨List.mem_cons_of_mem a this.1, this.2⟩

theorem mem_stripTime {c : Char} {l : List Char} (h : c ∈ stripTime l) :
    isTimeChar c = true :=
  (List.mem_filter.mp h).2

theorem stripTime_eq_self {l : List Char} (h : ∀ c ∈ l, isTimeChar c = true) :
    stripTime l = l :=
  List.filter_eq_self.mpr h

/-! ## `to_standard_time` structure lemmas -/

theorem pyInt_of_isIntField {l : List Char} (h : isIntField l = true) :
    pyInt l = .ok (digitsToNat l) := by
  simp only [isIntField, Bool.and_eq_true, Bool.not_eq_true'] at h
  have h0 : l ≠ [] := by cases l <;> simp_all
  simp [pyInt, h0, h.2]

theorem parse_milliseconds_lt (ms : List Char) (h : ∀ c ∈ ms, c.isDigit = true) :
    parse_milliseconds ms < 1000 := by
  by_cases h0 : ms = []
  · simp [parse_milliseconds, h0]
  · by_cases h1 : ms.length = 1
    · have hb := digitsToNat_lt ms h
      rw [h1] at hb
      norm_num at hb
      simp only [parse_milliseconds, if_neg h0, if_pos h1]
      omega
    · by_cases h2 : ms.length = 2
      · have hb := digitsToNat_lt ms h
        rw [h2] at hb
        norm_num at hb
        simp only [parse_milliseconds, if_neg h0, if_neg h1, if_pos h2]
        omega
      · have htake : ∀ c ∈ ms.take 3, c.isDigit = true :=
          fun c hc => h c (List.take_subset 3 ms hc)
        have hb := digitsToNat_lt (ms.take 3) htake
        have hlen : (ms.take 3).length ≤ 3 := by
          simp [List.length_take]
        have : (10 : Nat) ^ (ms.take 3).length ≤ 10 ^ 3 :=
          Nat.pow_le_pow_right (by omega) hlen
        simp only [parse_milliseconds, if_neg h0, if_neg h1, if_neg h2]
        omega

theorem secondsAndMs_of_valid {f : List Char} (h : isIntField (intPart f) = true) :
    secondsAndMs f = .ok (digitsToNat (intPart f), parse_milliseconds (fracPart f)) := by
  cases hs : pySplit '.' f with
  | nil => exact absurd hs (pySplit_ne_nil _ _)
  | cons s rest =>
    have hip : intPart f = s := by simp [intPart, hs]
    have hfp : fracPart f = rest.headD [] := by simp [fracPart, hs]
    rw [hip] at h
    have hpi : pyInt s = .ok (digitsToNat s) := pyInt_of_isIntField h
    cases rest with
    | nil => simp [secondsAndMs, hs, hpi, hip, hfp, parse_milliseconds]
    | cons m rest2 => simp [secondsAndMs, hs, hpi, hip, hfp]

theorem secondsAndMs_ms_lt {f : List Char}
    (hf : ∀ c ∈ f, c.isDigit = true ∨ c = '.') {sec ms : Nat}
    (h : secondsAndMs f = .ok (sec, ms)) : ms < 1000 := by
  cases hs : pySplit '.' f with
  | nil => exact absurd hs (pySplit_ne_nil _ _)
  | cons s rest =>
    simp only [secondsAndMs, hs] at h
    cases hpi : pyInt s with
    | error e => simp [hpi] at h
    | ok v =>
      simp only [hpi] at h
      cases rest with
      | nil =>
        simp only [Except.ok.injEq, Prod.mk.injEq] at h
        omega
      | cons m rest2 =>
        simp only [Except.ok.injEq, Prod.mk.injEq] at h
        have hm : ∀ c ∈ m, c.isDigit = true := by
          intro c hc
          have hmem : m ∈ pySplit '.' f := by
            rw [hs]; exact List.mem_cons_of_mem _ (List.mem_cons_self _ _)
          have hcf := pySplit_chars hmem hc
          rcases hf c hcf.1 with hd | hd
          · exact hd
          · exact absurd hd hcf.2
        have := parse_milliseconds_lt m hm
        omega

theorem formatTime_eq_canonical (h m sec ms : Nat) :
    formatTime h m sec ms = canonicalTime (m + h * 60) sec ms := by
  by_cases hs : sec ≥ 60
  · simp [formatTime, canonicalTime, hs]
  · have h1 : sec / 60 = 0 := Nat.div_eq_of_lt (by omega)
    have h2 : sec % 60 = sec := Nat.mod_eq_of_lt (by omega)
    simp [formatTime, canonicalTime, hs, h1, h2]

/-! ## Idempotence of the normalizer -/

theorem not_colon_mem_fmtNat (w n : Nat) : ':' ∉ fmtNat w n :=
  fun h => absurd (fmtNat_all_digits w n ':' h) (by decide)

theorem not_dot_mem_fmtNat (w n : Nat) : '.' ∉ fmtNat w n :=
  fun h => absurd (fmtNat_all_digits w n '.' h) (by decide)

theorem canonicalTime_all_time_chars (m sec ms : Nat) :
    ∀ c ∈ canonicalTime m sec ms, isTimeChar c = true := by
  intro c hc
  rw [canonicalTime] at hc
  rcases List.mem_append.mp hc with h | h
  · exact isTimeChar_of_isDigit (fmtNat_all_digits _ _ c h)
  · rcases List.mem_cons.mp h with h | h
    · rw [h]; decide
    · rcases List.mem_append.mp h with h | h
      · exact isTimeChar_of_isDigit (fmtNat_all_digits _ _ c h)
      · rcases List.mem_cons.mp h with h | h
        · rw [h]; decide
        · exact isTimeChar_of_isDigit (fmtNat_all_digits _ _ c h)

theorem pySplit_colon_canonical (m sec ms : Nat) :
    pySplit ':' (canonicalTime m sec ms) =
      [fmtNat 2 (m + sec / 60), fmtNat 2 (sec % 60) ++ ('.' :: fmtNat 3 ms)] := by
  have h2 : ':' ∉ fmtNat 2 (sec % 60) ++ ('.' :: fmtNat 3 ms) := by
    intro h
    rcases List.mem_append.mp h with h | h
    · exact not_colon_mem_fmtNat _ _ h
    · rcases List.mem_cons.mp h with h | h
      · exact absurd h (by decide)
      · exact not_colon_mem_fmtNat _ _ h
  rw [canonicalTime, pySplit_append (not_colon_mem_fmtNat 2 (m + sec / 60)),
    pySplit_of_not_mem h2]

theorem parse_milliseconds_fmtNat3 {ms : Nat} (h : ms < 1000) :
    parse_milliseconds (fmtNat 3 ms) = ms := by
  have hpow : (10 : Nat) ^ 3 = 1000 := by norm_num
  have hlen : (fmtNat 3 ms).length = 3 :=
    fmtNat_length 3 ms (natDigits_length ms 2 (by omega))
  have h0 : fmtNat 3 ms ≠ [] := fmtNat_ne_nil 3 ms
  have htake : (fmtNat 3 ms).take 3 = fmtNat 3 ms :=
    List.take_of_length_le (by omega)
  simp [parse_milliseconds, h0, hlen, htake, digitsToNat_fmtNat]

theorem to_standard_time_canonical (M sec ms : Nat) (hms : ms < 1000) :
    to_standard_time (canonicalTime M sec ms) = .ok (canonicalTime M sec ms) := by
  have hstrip : stripTime (canonicalTime M sec ms) = canonicalTime M sec ms :=
    stripTime_eq_self (canonicalTime_all_time_chars M sec ms)
  have hdot : pySplit '.' (fmtNat 2 (sec % 60) ++ ('.' :: fmtNat 3 ms)) =
      [fmtNat 2 (sec % 60), fmtNat 3 ms] := by
    rw [pySplit_append (not_dot_mem_fmtNat 2 (sec % 60)),
      pySplit_of_not_mem (not_dot_mem_fmtNat 3 ms)]
  have hsm : secondsAndMs (fmtNat 2 (sec % 60) ++ ('.' :: fmtNat 3 ms)) =
      .ok (sec % 60, ms) := by
    simp [secondsAndMs, hdot, pyInt_fmtNat, parse_milliseconds_fmtNat3 hms]
  have hmod : sec % 60 < 60 := Nat.mod_lt _ (by omega)
  have e1 : sec % 60 / 60 = 0 := Nat.div_eq_of_lt hmod
  have e2 : sec % 60 % 60 = sec % 60 := Nat.mod_eq_of_lt hmod
  simp only [to_standard_time, hstrip, pySplit_colon_canonical, pyInt_fmtNat, hsm,
    formatTime_eq_canonical]
  simp only [canonicalTime, e1, e2]
  norm_num

theorem to_standard_time_shape {s out : List Char} (h : to_standard_time s = .ok out) :
    ∃ M sec ms, ms < 1000 ∧ out = canonicalTime M sec ms := by
  have hfield : ∀ f ∈ pySplit ':' (stripTime s), ∀ c ∈ f, c.isDigit = true ∨ c = '.' := by
    intro f hf c hc
    obtain ⟨hmem, hne⟩ := pySplit_chars hf hc
    exact isDigit_or_dot_of_timeChar (mem_stripTime hmem) hne
  cases hsplit : pySplit ':' (stripTime s) with
  | nil => simp only [to_standard_time, hsplit] at h; exact Except.noConfusion h
  | cons f1 r1 =>
    cases r1 with
    | nil =>
      cases hsm : secondsAndMs f1 with
      | error e => simp only [to_standard_time, hsplit, hsm] at h; exact Except.noConfusion h
      | ok p =>
        obtain ⟨sec, ms⟩ := p
        simp only [to_standard_time, hsplit, hsm, Except.ok.injEq] at h
        have hb := secondsAndMs_ms_lt
          (hfield f1 (by rw [hsplit]; exact List.mem_cons_self _ _)) hsm
        exact ⟨0 + 0 * 60, sec, ms, hb, by rw [← h, formatTime_eq_canonical]⟩
    | cons f2 r2 =>
      cases r2 with
      | nil =>
        cases hpi : pyInt f1 with
        | error e => simp only [to_standard_time, hsplit, hpi] at h; exact Except.noConfusion h
        | ok m =>
          cases hsm : secondsAndMs f2 with
          | error e => simp only [to_standard_time, hsplit, hpi, hsm] at h; exact Except.noConfusion h
          | ok p =>
            obtain ⟨sec, ms⟩ := p
            simp only [to_standard_time, hsplit, hpi, hsm, Except.ok.injEq] at h
            have hb := secondsAndMs_ms_lt
              (hfield f2 (by
                rw [hsplit]
                exact List.mem_cons_of_mem _ (List.mem_cons_self _ _))) hsm
            exact ⟨m + 0 * 60, sec, ms, hb, by rw [← h, formatTime_eq_canonical]⟩
      | cons f3 r3 =>
        cases r3 with
        | nil =>
          cases hpi : pyInt f1 with
          | error e => simp only [to_standard_time, hsplit, hpi] at h; exact Except.noConfusion h
          | ok hh =>
            cases hpi2 : pyInt f2 with
            | error e => simp only [to_standard_time, hsplit, hpi, hpi2] at h; exact Except.noConfusion h
            | ok m =>
              cases hsm : secondsAndMs f3 with
              | error e => simp only [to_standard_time, hsplit, hpi, hpi2, hsm] at h; exact Except.noConfusion h
              | ok p =>
                obtain ⟨sec, ms⟩ := p
                simp only [to_standard_time, hsplit, hpi, hpi2, hsm,
                  Except.ok.injEq] at h
                have hb := secondsAndMs_ms_lt
                  (hfield f3 (by
                    rw [hsplit]
                    exact List.mem_cons_of_mem _
                      (List.mem_cons_of_mem _ (List.mem_cons_self _ _)))) hsm
                exact ⟨m + hh * 60, sec, ms, hb, by rw [← h, formatTime_eq_canonical]⟩
        | cons f4 r4 => simp only [to_standard_time, hsplit] at h; exact Except.noConfusion h

theorem to_standard_time_idem {s out : List Char} (h : to_standard_time s = .ok out) :
    to_standard_time out = .ok out := by
  obtain ⟨M, sec, ms, hms, rfl⟩ := to_standard_time_shape h
  exact to_standard_time_canonical M sec ms hms

/-! ## Rendering-loop lemmas -/

theorem pyOr_nil (b : List Elem) : pyOr [] b = b := rfl

theorem pyOr_of_ne {a : List Elem} (h : a ≠ []) (b : List Elem) : pyOr a b = a := by
  cases a with
  | nil => exact absurd rfl h
  | cons x xs => rfl

theorem renderItems_err_of_mem :
    ∀ {l : List LrcItem} {ev : Option (List Char)} {t : List Char},
      LrcItem.line none ev t ∈ l → ∃ er, renderItems l = .error er := by
  intro l
  induction l with
  | nil => intro ev t h; simp at h
  | cons it rest ih =>
    intro ev t h
    rcases List.mem_cons.mp h with h | h
    · rw [← h]
      exact ⟨.typeError, rfl⟩
    · obtain ⟨er, her⟩ := ih h
      cases it with
      | mark p => exact ⟨er, by simp [renderItems, her]⟩
      | line b e2 t2 =>
        cases b with
        | none => exact ⟨.typeError, rfl⟩
        | some bs =>
          cases hts : to_standard_time bs with
          | error e3 => exact ⟨e3, by simp [renderItems, hts]⟩
          | ok ts => exact ⟨er, by simp [renderItems, hts, her]⟩

theorem mem_processDiv_of_mem {d line : Elem} (h : line ∈ lookupLines d) :
    lineItem line ∈ processDiv d :=
  List.mem_append_right _ (List.mem_map_of_mem lineItem h)

theorem filter_isLine_map_lineItem (ls : List Elem) :
    ((ls.map lineItem).filter LrcItem.isLine).length = ls.length := by
  induction ls with
  | nil => rfl
  | cons x xs ih => simp [lineItem, LrcItem.isLine, ih]

/-! ## Claim theorems -/

/-- C1 (as stated, counterexample): the input `abc` strips to the empty
string, which splits into one colon field, yet `to_standard_time` raises
`ValueError` (from `int('')`) instead of returning a canonical `MM:SS.fff`
string. -/
theorem claim_C1_cex :
    (pySplit ':' (stripTime ("abc".data))).length = 1 ∧
    to_standard_time ("abc".data) = .error .valueError :=
  ⟨rfl, rfl⟩

/-- C1 (amended): on stripped inputs of 1, 2 or 3 colon fields whose numeric
sub-fields are nonempty all-digit strings, `to_standard_time` returns the
canonical `MM:SS.fff` string of spec section 4.1 — 1 field read as `SS[.fff]`
with minutes 0, 2 fields as `MM:SS[.fff]`, 3 fields with `HH*60` added to the
minutes; a 1-digit fraction is scaled by 100, a 2-digit one by 10, 3 or more
digits are truncated to the first three; seconds carry into minutes; the
three spec examples evaluate as stated. -/
theorem claim_C1 :
    (∀ s f, pySplit ':' (stripTime s) = [f] → isIntField (intPart f) = true →
      to_standard_time s =
        .ok (canonicalTime 0 (digitsToNat (intPart f))
          (parse_milliseconds (fracPart f)))) ∧
    (∀ s f1 f2, pySplit ':' (stripTime s) = [f1, f2] → isIntField f1 = true →
      isIntField (intPart f2) = true →
      to_standard_time s =
        .ok (canonicalTime (digitsToNat f1) (digitsToNat (intPart f2))
          (parse_milliseconds (fracPart f2)))) ∧
    (∀ s f1 f2 f3, pySplit ':' (stripTime s) = [f1, f2, f3] →
      isIntField f1 = true → isIntField f2 = true → isIntField (intPart f3) = true →
      to_standard_time s =
        .ok (canonicalTime (digitsToNat f2 + digitsToNat f1 * 60)
          (digitsToNat (intPart f3)) (parse_milliseconds (fracPart f3)))) ∧
    (∀ c : Char, parse_milliseconds [c] = (c.toNat - 48) * 100) ∧
    (∀ c d : Char, parse_milliseconds [c, d] = digitsToNat [c, d] * 10) ∧
    (∀ l : List Char, 3 ≤ l.length → parse_milliseconds l = digitsToNat (l.take 3)) ∧
    to_standard_time ("47.243".data) = .ok ("00:47.243".data) ∧
    to_standard_time ("04:24.638".data) = .ok ("04:24.638".data) ∧
    to_standard_time ("1:2:3.4".data) = .ok ("62:03.400".data) := by
  refine ⟨?_, ?_, ?_, ?_, ?_, ?_, rfl, rfl, rfl⟩
  · intro s f hsplit hint
    simp only [to_standard_time, hsplit, secondsAndMs_of_valid hint,
      formatTime_eq_canonical]
  · intro s f1 f2 hsplit h1 h2
    simp only [to_standard_time, hsplit, pyInt_of_isIntField h1,
      secondsAndMs_of_valid h2, formatTime_eq_canonical]
    norm_num
  · intro s f1 f2 f3 hsplit h1 h2 h3
    simp only [to_standard_time, hsplit, pyInt_of_isIntField h1,
      pyInt_of_isIntField h2, secondsAndMs_of_valid h3, formatTime_eq_canonical]
  · intro c
    simp [parse_milliseconds, digitsToNat]
  · intro c d
    simp [parse_milliseconds]
  · intro l hl
    have h0 : l ≠ [] := by intro h; rw [h] at hl; simp at hl
    have h1 : l.length ≠ 1 := by omega
    have h2 : l.length ≠ 2 := by omega
    simp [parse_milliseconds, h0, h1, h2]

/-- Witness for C1: the amended 3-field clause applied to `1:2:3.4`. -/
theorem claim_C1_witness :
    to_standard_time ("1:2:3.4".data) =
      .ok (canonicalTime (digitsToNat ("2".data) + digitsToNat ("1".data) * 60)
        (digitsToNat (intPart ("3.4".data)))
        (parse_milliseconds (fracPart ("3.4".data)))) :=
  claim_C1.2.2.1 ("1:2:3.4".data) ("1".data) ("2".data) ("3.4".data)
    (by decide) (by decide) (by decide) (by decide)

/-- C6: normalization is idempotent in the Kleene sense: feeding the result
of `to_standard_time` back into it returns the same result (and an error
propagates unchanged). -/
theorem claim_C6 (x : List Char) :
    Except.bind (to_standard_time x) to_standard_time = to_standard_time x := by
  cases h : to_standard_time x with
  | error e => rfl
  | ok out => exact to_standard_time_idem h

/-- Witness for C6: idempotence at the concrete input `47.243`. -/
theorem claim_C6_witness :
    Except.bind (to_standard_time ("47.243".data)) to_standard_time =
      to_standard_time ("47.243".data) :=
  claim_C6 ("47.243".data)

/-- C9 (as stated, counterexample): on `1:2:3:4` (4 fields) the code raises
`UnboundLocalError`, not the defined `TimecodeFormatError` of spec
section 7. -/
theorem claim_C9_cex :
    to_standard_time ("1:2:3:4".data) = .error .unboundLocalError ∧
    to_standard_time ("1:2:3:4".data) ≠ .error .timecodeFormatError :=
  ⟨rfl, fun h => PyErr.noConfusion (Except.error.inj h)⟩

/-- C9 (amended): a stripped field count outside 1..3 makes
`to_standard_time` fail — but with an uncaught `UnboundLocalError` (the
branchless locals), not with the spec's defined `TimecodeFormatError`. -/
theorem claim_C9 (s : List Char)
    (h1 : (pySplit ':' (stripTime s)).length ≠ 1)
    (h2 : (pySplit ':' (stripTime s)).length ≠ 2)
    (h3 : (pySplit ':' (stripTime s)).length ≠ 3) :
    to_standard_time s = .error .unboundLocalError := by
  cases hsplit : pySplit ':' (stripTime s) with
  | nil => simp only [to_standard_time, hsplit]
  | cons f1 r1 =>
    cases r1 with
    | nil => exact absurd (by rw [hsplit]; rfl) h1
    | cons f2 r2 =>
      cases r2 with
      | nil => exact absurd (by rw [hsplit]; rfl) h2
      | cons f3 r3 =>
        cases r3 with
        | nil => exact absurd (by rw [hsplit]; rfl) h3
        | cons f4 r4 => simp only [to_standard_time, hsplit]

/-- Witness for C9: the amended clause applied to `1:2:3:4`. -/
theorem claim_C9_witness :
    to_standard_time ("1:2:3:4".data) = .error .unboundLocalError :=
  claim_C9 ("1:2:3:4".data) (by decide) (by decide) (by decide)

/-- C2: a timed document renders each group as an optional `[label]` line
followed by `[begin]text` lines; the spec's concrete document renders
exactly as stated; a mark renders as `[part]` plus newline; the `end`
attribute never influences the rendering. -/
theorem claim_C2 :
    ttml_to_lrc rawC2 (some treeC2) = .ok ("[Verse]\n[00:01.000]hello\n".data) ∧
    (∀ p rest, renderItems (LrcItem.mark p :: rest) =
      match renderItems rest with
      | .error e => .error e
      | .ok r => .ok ('[' :: p ++ ']' :: '\n' :: r)) ∧
    (∀ b e1 e2 t rest,
      renderItems (LrcItem.line b e1 t :: rest) =
        renderItems (LrcItem.line b e2 t :: rest)) :=
  ⟨rfl, fun _ _ => rfl, fun _ _ _ _ _ => rfl⟩

/-- C3 (as stated, counterexample): for a well-formed document with no body
element under either lookup, `ttml_to_lrc` silently returns the empty
string — a transcript, not a `MissingBodyError` failure. -/
theorem claim_C3_cex :
    findDesc qtBody treeC3 = none ∧
    findChild ("body".data) treeC3 = none ∧
    ttml_to_lrc rawC3 (some treeC3) = .ok [] ∧
    (LrcOutcome.ok []).isTranscript = true :=
  ⟨rfl, rfl, rfl, rfl⟩

/-- C3 (amended): when no body is found after the qualified and then the
unqualified lookup, `ttml_to_lrc` logs and returns the empty string (it does
not raise). -/
theorem claim_C3 (raw : List Char) (root : Elem) (hraw : raw ≠ [])
    (h1 : findDesc qtBody root = none)
    (h2 : findChild ("body".data) root = none) :
    ttml_to_lrc raw (some root) = .ok [] := by
  simp [ttml_to_lrc, lookupBody, h1, h2, hraw]

/-- Witness for C3: the bodyless example document. -/
theorem claim_C3_witness : ttml_to_lrc rawC3 (some treeC3) = .ok [] :=
  claim_C3 rawC3 treeC3 (by decide) rfl rfl

/-- C4: with a body found, the document is rendered untimed exactly when the
raw markup contains the literal timing sentinel (whatever the parsed tree
looks like); the untimed rendering is the `[!text]` sentinel followed by the
newline-joined trimmed texts, dropping whitespace-only lines and preserving
order across groups. -/
theorem claim_C4 :
    (∀ raw root body, raw ≠ [] → lookupBody root = some body →
      ttml_to_lrc raw (some root) =
        (if hasSubstr timingSentinel raw then .ok (untimedRender body)
         else timedRender body)) ∧
    untimedRender bodyC4 = "[!text]a\nb".data ∧
    untimedRender bodyC4b = "[!text]a\nb".data := by
  refine ⟨?_, rfl, rfl⟩
  intro raw root body hraw hbody
  simp [ttml_to_lrc, hraw, hbody]

/-- Witness for C4: the sentinel-carrying example document renders untimed. -/
theorem claim_C4_witness :
    ttml_to_lrc rawC4 (some treeC4) = .ok ("[!text]a\nb".data) := by
  rw [claim_C4.1 rawC4 treeC4 bodyC4 (by decide) rfl]
  rfl

/-- C5: every lookup uses the qualified result when nonempty and otherwise
falls back to the unqualified result, at all four sites (body, group, line,
span); an entirely unqualified document is still fully rendered. -/
theorem claim_C5 :
    (∀ root, findDesc qtBody root = none →
      lookupBody root = findChild ("body".data) root) ∧
    (∀ root b, findDesc qtBody root = some b → lookupBody root = some b) ∧
    (∀ body, findallDesc qtDiv body = [] →
      lookupDivs body = findallChild ("div".data) body) ∧
    (∀ body, findallDesc qtDiv body ≠ [] →
      lookupDivs body = findallDesc qtDiv body) ∧
    (∀ d, findallDesc qtP d = [] → lookupLines d = findallChild ("p".data) d) ∧
    (∀ d, findallDesc qtP d ≠ [] → lookupLines d = findallDesc qtP d) ∧
    (∀ line, findallDesc qtSpan line = [] →
      lookupSpans line = findallChild ("span".data) line) ∧
    (∀ line, findallDesc qtSpan line ≠ [] →
      lookupSpans line = findallDesc qtSpan line) ∧
    ttml_to_lrc rawC5 (some treeC5) = .ok ("[00:01.000]hi\n".data) := by
  refine ⟨?_, ?_, ?_, ?_, ?_, ?_, ?_, ?_, rfl⟩
  · intro root h; simp [lookupBody, h]
  · intro root b h; simp [lookupBody, h]
  · intro body h; rw [lookupDivs, h, pyOr_nil]
  · intro body h; rw [lookupDivs, pyOr_of_ne h]
  · intro d h; rw [lookupLines, h, pyOr_nil]
  · intro d h; rw [lookupLines, pyOr_of_ne h]
  · intro line h; rw [lookupSpans, h, pyOr_nil]
  · intro line h; rw [lookupSpans, pyOr_of_ne h]

/-- Witness for C5: in the all-unqualified document, each lookup takes its
fallback. -/
theorem claim_C5_witness :
    lookupBody treeC5 = findChild ("body".data) treeC5 ∧
    lookupDivs bodyC5 = findallChild ("div".data) bodyC5 ∧
    lookupLines divC5 = findallChild ("p".data) divC5 ∧
    lookupSpans lineC5 = findallChild ("span".data) lineC5 :=
  ⟨claim_C5.1 treeC5 rfl, claim_C5.2.2.1 bodyC5 rfl,
    claim_C5.2.2.2.2.1 divC5 rfl, claim_C5.2.2.2.2.2.2.1 lineC5 rfl⟩

/-- C7: in timed mode every discovered line element yields exactly one line
entry, even when its text is empty — one entry per line in every group, and
the concrete empty-text line renders as `[00:01.000]` plus newline. -/
theorem claim_C7 :
    (∀ d, ((processDiv d).filter LrcItem.isLine).length = (lookupLines d).length) ∧
    ttml_to_lrc rawC7 (some treeC7) = .ok ("[00:01.000]\n".data) := by
  refine ⟨?_, rfl⟩
  intro d
  simp only [processDiv, List.filter_append, List.length_append]
  have h1 : ((match pyOrAttr (d.get qtSongPart) (d.get rawSongPart) with
      | some p => if p = [] then [] else [LrcItem.mark p]
      | none => []).filter LrcItem.isLine).length = 0 := by
    cases pyOrAttr (d.get qtSongPart) (d.get rawSongPart) with
    | none => rfl
    | some p => by_cases hp : p = [] <;> simp [hp, LrcItem.isLine]
  rw [h1, filter_isLine_map_lineItem]
  omega

/-- C8 (as stated, counterexample): the empty string is returned unchanged as
an empty transcript, not rejected with the malformed-markup error. -/
theorem claim_C8_cex :
    ttml_to_lrc [] none = .ok [] ∧ ttml_to_lrc [] none ≠ .parseError :=
  ⟨rfl, fun h => LrcOutcome.noConfusion h⟩

/-- C8 (amended): every nonempty input that does not parse as a markup tree
makes `ttml_to_lrc` fail with the propagated parse error (the
malformed-markup error), with no partial result; only the empty string is
short-circuited to an empty transcript. -/
theorem claim_C8 (raw : List Char) (hraw : raw ≠ []) :
    ttml_to_lrc raw none = .parseError := by
  simp [ttml_to_lrc, hraw]

/-- Witness for C8: an unparseable one-character input. -/
theorem claim_C8_witness : ttml_to_lrc ("<".data) none = .parseError :=
  claim_C8 ("<".data) (by decide)

/-- C10: in timed mode, a discovered line element without a `begin`
attribute makes the call raise (the `None` value reaches `re.sub`), so the
call returns no transcript. -/
theorem claim_C10 (raw : List Char) (root body d line : Elem)
    (hraw : raw ≠ []) (hsent : hasSubstr timingSentinel raw = false)
    (hbody : lookupBody root = some body)
    (hd : d ∈ lookupDivs body) (hline : line ∈ lookupLines d)
    (hbegin : line.get ("begin".data) = none) :
    (ttml_to_lrc raw (some root)).isTranscript = false := by
  have hitem : lineItem line ∈ (lookupDivs body).flatMap processDiv :=
    List.mem_flatMap.mpr ⟨d, hd, mem_processDiv_of_mem hline⟩
  have heq : lineItem line =
      LrcItem.line none (line.get ("end".data)) (lineText line) := by
    rw [lineItem, hbegin]
  rw [heq] at hitem
  obtain ⟨er, her⟩ := renderItems_err_of_mem hitem
  simp [ttml_to_lrc, hraw, hsent, hbody, timedRender, her, LrcOutcome.isTranscript]

/-- Witness for C10: the example document with a begin-less line returns no
transcript. -/
theorem claim_C10_witness :
    (ttml_to_lrc rawC10 (some treeC10)).isTranscript = false :=
  claim_C10 rawC10 treeC10 bodyC10 divC10 lineC10 (by decide) (by decide) rfl
    (List.mem_singleton.mpr rfl) (List.mem_singleton.mpr rfl) rfl

end AMAPI
